import Mathlib

/-!
Verification development for the ServerlessModule lifecycle engine
(src/lib/ServerlessModule.js): a module entity that aggregates child
function entities, backed by a JSON-document filesystem layout.

The embedding models:
  * JSON documents (`JVal`) and the JS object-merge primitives that the
    code uses (`_.assign` / `_.extend` become `assignFields`);
  * the filesystem as two partial maps (parsed JSON files, directory
    listings), with `mkdir` / `writeFile` mirroring `fs.mkdirSync` and
    `SUtils.writeFile`;
  * the Serverless context object (`_S`) with its `config.projectPath`;
  * the module entity itself with its `_config` block, its descriptor
    fields and its live `functions` children;
  * the Function Entity, whose source file is not part of this
    repository snapshot; it is modelled from the specification (same
    lifecycle shape as the module, leaf level).

JS truthiness of optional strings (undefined and the empty string are
falsy) is made explicit with `truthy`.  Fallible operations return
`Except SErr`, mirroring thrown `SError`s and rejected promises; the
error kind records the taxonomy the specification assigns to each
message (ConfigError vs TypeError-class).
-/

/-- Parsed JSON values, the payload of every descriptor document. -/
inductive JVal where
  | null
  | bool (b : Bool)
  | num (n : Int)
  | str (s : String)
  | arr (xs : List JVal)
  | obj (fields : List (String × JVal))

mutual
/-- Structural boolean equality on JSON values (used only through
`optJEq`; no global decidable equality is needed for the nested type). -/
def JVal.beq : JVal → JVal → Bool
  | .null, .null => true
  | .bool a, .bool b => a == b
  | .num a, .num b => a == b
  | .str a, .str b => a == b
  | .arr a, .arr b => beqJList a b
  | .obj a, .obj b => beqJFields a b
  | _, _ => false

/-- Structural boolean equality on lists of JSON values. -/
def beqJList : List JVal → List JVal → Bool
  | [], [] => true
  | a :: as_, b :: bs => JVal.beq a b && beqJList as_ bs
  | _, _ => false

/-- Structural boolean equality on JSON object fields. -/
def beqJFields : List (String × JVal) → List (String × JVal) → Bool
  | [], [] => true
  | (k1, v1) :: r1, (k2, v2) :: r2 => k1 == k2 && JVal.beq v1 v2 && beqJFields r1 r2
  | _, _ => false
end

/-- Boolean equality of optional JSON values. -/
def optJEq : Option JVal → Option JVal → Bool
  | none, none => true
  | some a, some b => JVal.beq a b
  | _, _ => false

/-- JS truthiness of an optional string: `undefined` and `""` are falsy. -/
def truthy : Option String → Bool
  | none => false
  | some s => !s.isEmpty

/-- Filesystem paths as segment lists; `path.join` is list append. -/
abbrev FsPath := List String


/-- `obj[k]` on a JS object: the first binding of the key. -/
def lookupF (k : String) : List (String × JVal) → Option JVal
  | [] => none
  | (k0, v) :: rest => if k0 = k then some v else lookupF k rest

/-- The keys of a JS object. -/
def keysF (l : List (String × JVal)) : List String :=
  l.map Prod.fst

/-- `obj[key] = value` on a JS object: overwrite the key in place when it
is present, append it otherwise.  Building block of `_.assign`/`_.extend`. -/
def upsert : List (String × JVal) → String → JVal → List (String × JVal)
  | [], k, v => [(k, v)]
  | (k0, v0) :: rest, k, v =>
    if k0 = k then (k, v) :: rest else (k0, v0) :: upsert rest k v

/-- `_.assign(target, source)` / `_.extend(target, source)`: copy every
own key of `source` onto `target`, in source order; existing keys are
overwritten in place, new keys are appended. -/
def assignFields (target : List (String × JVal)) :
    List (String × JVal) → List (String × JVal)
  | [] => target
  | (k, v) :: rest => assignFields (upsert target k v) rest

/-- `delete obj[k]`: remove a key from a JS object. -/
def eraseKey (k : String) (fields : List (String × JVal)) :
    List (String × JVal) :=
  fields.filter (fun kv => kv.1 != k)

/-- Error taxonomy from the specification (section 7): precondition
violations are ConfigError, passing a live entity where a literal was
required is the TypeError-class programmer error.  In the code every
throw site uses the single SError class; the kind records which bucket
the specification assigns to the message. -/
inductive SErrKind where
  | config
  | typeErr
deriving DecidableEq

/-- A thrown SError: its taxonomy bucket and its message. -/
structure SErr where
  kind : SErrKind
  msg : String
deriving DecidableEq

/-- The filesystem: parsed JSON documents by path, and directory
listings by path.  A path is a file iff `files` is defined on it, and a
directory iff `dirs` is defined on it. -/
structure FS where
  files : FsPath → Option JVal
  dirs : FsPath → Option (List String)

/-- `SUtils.fileExistsSync`. -/
def FS.fileExists (fs : FS) (p : FsPath) : Bool :=
  (fs.files p).isSome

/-- `SUtils.readAndParseJsonSync`, as a partial read of the parsed
document. -/
def FS.readJson (fs : FS) (p : FsPath) : Option JVal :=
  fs.files p

/-- `fs.readdirSync`. -/
def FS.readdir (fs : FS) (p : FsPath) : Option (List String) :=
  fs.dirs p

/-- Add a directory entry, keeping the listing duplicate-free. -/
def addEntry (entries : List String) (name : String) : List String :=
  if entries.contains name then entries else entries ++ [name]

/-- `fs.mkdirSync`: fails when the directory already exists (EEXIST) or
when the parent directory is missing (ENOENT); otherwise registers the
empty directory and adds it to the listing of its parent. -/
def FS.mkdir (fs : FS) (p : FsPath) : Except SErr FS :=
  if (fs.dirs p).isSome then
    .error ⟨.config, "EEXIST: file already exists, mkdir"⟩
  else
    match p.getLast?, fs.dirs p.dropLast with
    | some name, some parentEntries =>
      .ok { files := fs.files,
            dirs := fun q =>
              if q = p then some [] else
              if q = p.dropLast then some (addEntry parentEntries name) else
              fs.dirs q }
    | _, _ => .error ⟨.config, "ENOENT: no such file or directory, mkdir"⟩

/-- `SUtils.writeFile`: store the document at the path and record the
file name in the listing of the containing directory (when that
directory is tracked). -/
def FS.writeFile (fs : FS) (p : FsPath) (v : JVal) : FS :=
  { files := fun q => if q = p then some v else fs.files q,
    dirs := fun q =>
      if q = p.dropLast then
        (fs.dirs q).map (fun entries => addEntry entries ((p.getLast?).getD ""))
      else fs.dirs q }

/-- The Serverless instance configuration seen by this component: only
`projectPath` is read. -/
structure SConfig where
  projectPath : Option FsPath
deriving DecidableEq

/-- The Serverless context object (`_S`): the shared, read-only project
context every entity is constructed with. -/
structure Serverless where
  config : SConfig
deriving DecidableEq

/-- The `config` argument of the module constructor:
`config.component` and `config.module`. -/
structure ModuleConfig where
  component : Option String := none
  module : Option String := none
deriving DecidableEq

/-- The `_config` block of a module entity: identity names, the
canonical sPath and the derived absolute directory. -/
structure MConfig where
  component : Option String
  module : Option String
  sPath : Option String
  fullPath : Option FsPath
deriving DecidableEq

/-- Modelled from the spec: the Identifier generator collaborator
(`SUtils.generateShortId`), a last-resort default name source.  Its
source is not under src/; a deterministic stand-in suffices because the
fallback branch is unreachable after constructor validation. -/
def generateShortId (n : Nat) : String :=
  String.mk (List.replicate n 'x')

/-- Modelled from the spec: the platform version read from
`package.json` (a file outside the provided sources), used only to
build the default `profile` field. -/
def packageVersion : String :=
  "0.0.0"

/-- Modelled from the spec: the FsPath Resolver collaborator
(`SUtils.buildSPath`), producing the canonical slash-joined identity.
JS string coercion renders a missing part as "undefined"; in this
codebase it is only reached with both names present. -/
def buildSPath (component module : Option String) : String :=
  component.getD "undefined" ++ "/" ++ module.getD "undefined"

/-- `updateConfig(config)`: record the identity and the canonical sPath
when a name is supplied, then derive the absolute directory when the
project root is known.  (`SUtils.parseSPath` recovers exactly the parts
`buildSPath` joined, so the absolute directory is the project root
followed by the two name segments.) -/
def updateConfig (S : Serverless) (old : MConfig) (config : ModuleConfig) :
    MConfig :=
  let c1 :=
    if truthy config.component || truthy config.module then
      { old with component := config.component, module := config.module,
                 sPath := some (buildSPath config.component config.module) }
    else old
  match S.config.projectPath, c1.sPath with
  | some pp, some _ =>
    let fp : FsPath := pp ++ [c1.component.getD "undefined", c1.module.getD "undefined"]
    { c1 with fullPath := some fp }
  | _, _ => c1

/-- Modelled from the spec: the Function Entity (sibling core, same
lifecycle shape as the module but leaf level; its source file is not in
this repository snapshot).  It carries its identity triple and its
descriptor fields. -/
structure FunctionEntity where
  component : String
  module : String
  name : String
  fields : List (String × JVal)

/-- Modelled from the spec: constructing a function entity bound to
(component, module, function name); descriptor fields start empty. -/
def FunctionEntity.construct (component module name : String) :
    FunctionEntity :=
  ⟨component, module, name, []⟩

/-- Modelled from the spec: the leaf `set()` merges a literal document
onto the entity and returns it. -/
def FunctionEntity.set (fe : FunctionEntity) (doc : JVal) : FunctionEntity :=
  match doc with
  | .obj kvs => { fe with fields := assignFields fe.fields kvs }
  | _ => fe

/-- Modelled from the spec: the leaf `get()`, the exportable document of
the function entity. -/
def FunctionEntity.get (fe : FunctionEntity) : JVal :=
  .obj fe.fields

/-- The leaf descriptor file name. -/
def sFunctionJson : String := "s-function.json"

/-- The module descriptor file name. -/
def sModuleJson : String := "s-module.json"

/-- Modelled from the spec: the leaf `load()` — read the descriptor
document of the function directory and merge it onto a freshly
constructed entity. -/
def FunctionEntity.load (fs : FS) (dir : FsPath) (component module name : String) :
    Except SErr FunctionEntity :=
  let base := FunctionEntity.construct component module name
  match fs.readJson (dir ++ [sFunctionJson]) with
  | some (.obj kvs) =>
    .ok { base with fields := assignFields base.fields kvs }
  | some _ => .error ⟨.config, "Malformed function descriptor document"⟩
  | none => .error ⟨.config, "Function could not be loaded because it does not exist in your project"⟩

/-- Modelled from the spec: the leaf `save()` — scaffold the function
directory when its descriptor is absent, then write the exportable
document to s-function.json. -/
def FunctionEntity.save (fe : FunctionEntity) (projectPath : FsPath) (fs : FS) :
    Except SErr FS :=
  let dir := projectPath ++ [fe.component, fe.module, fe.name]
  match (if !(fs.fileExists (dir ++ [sFunctionJson])) then fs.mkdir dir else .ok fs) with
  | .error e => .error e
  | .ok fs1 => .ok (fs1.writeFile (dir ++ [sFunctionJson]) fe.get)

/-- Replace every occurrence of a nonempty pattern in a character list;
the fuel argument (instantiated with the input length) makes the
recursion structural. -/
def replaceFuel (pat rep : List Char) : Nat → List Char → List Char
  | 0, s => s
  | _ + 1, [] => []
  | fuel + 1, c :: rest =>
    if pat.isPrefixOf (c :: rest) && !pat.isEmpty then
      rep ++ replaceFuel pat rep fuel ((c :: rest).drop pat.length)
    else c :: replaceFuel pat rep fuel rest

/-- Replace every occurrence of a pattern in a string. -/
def replaceAll (pat rep s : String) : String :=
  ⟨replaceFuel pat.data rep.data s.data.length s.data⟩

/-- Modelled from the spec: the Template/Variable Populator collaborator
(`SUtils.populate`) — a deep copy of the object graph with the stage and
region placeholders resolved in every string. -/
def substPlaceholders (stage region : String) (s : String) : String :=
  replaceAll "$\x7bregion\x7d" region (replaceAll "$\x7bstage\x7d" stage s)

mutual
/-- Placeholder resolution over a JSON value. -/
def populate (stage region : String) : JVal → JVal
  | .null => .null
  | .bool b => .bool b
  | .num n => .num n
  | .str s => .str (substPlaceholders stage region s)
  | .arr xs => .arr (populateList stage region xs)
  | .obj kvs => .obj (populateFields stage region kvs)

/-- Placeholder resolution over a list of JSON values. -/
def populateList (stage region : String) : List JVal → List JVal
  | [] => []
  | x :: xs => populate stage region x :: populateList stage region xs

/-- Placeholder resolution over the fields of a JSON object. -/
def populateFields (stage region : String) :
    List (String × JVal) → List (String × JVal)
  | [] => []
  | (k, v) :: kvs => (k, populate stage region v) :: populateFields stage region kvs
end

/-- Modelled from the spec: the leaf `getPopulated()` — the populated
form of the function document, a deterministic function of the entity
and the (stage, region) context. -/
def FunctionEntity.getPopulated (fe : FunctionEntity) (stage region : String) :
    JVal :=
  populate stage region (.obj fe.fields)

/-- The module entity (src/lib/ServerlessModule.js): the Serverless
context reference `_S`, the `_config` block, the descriptor fields kept
directly on the instance (name, version, profile, location, author,
description, runtime, custom, cloudFormation, plus any merged-in keys)
and the `functions` map of live child entities.  The `functions`
property is kept apart from the other fields because its values are
entity instances, never JSON; the in-memory invariant of the
specification (section 3, invariant d). -/
structure ServerlessModule where
  _S : Serverless
  _config : MConfig
  fields : List (String × JVal)
  functions : List (String × FunctionEntity)

/-- The keys the constructor declares defaults for. -/
def defaultKeys : List String :=
  ["name", "version", "profile", "location", "author", "description",
   "runtime", "custom", "cloudFormation"]

/-- The name default with its generated-identifier fallback:
`_this.name = _this._config.module` falling back to the string "module"
followed by `SUtils.generateShortId(6)`. -/
def nameDefault (module : Option String) : String :=
  if truthy module then module.getD "" else "module" ++ generateShortId 6

/-- The default descriptor fields the constructor assigns. -/
def defaultFields (name : String) : List (String × JVal) :=
  [("name", .str name),
   ("version", .str "0.0.1"),
   ("profile", .str ("aws-v" ++ packageVersion)),
   ("location", .str "https://github.com/..."),
   ("author", .str ""),
   ("description", .str "A Serverless Module"),
   ("runtime", .str "nodejs"),
   ("custom", .obj []),
   ("cloudFormation", .obj
     [("resources", .obj []),
      ("lambdaIamPolicyDocumentStatements", .arr [])])]

/-- The constructor: validate that both `config.component` and
`config.module` are (truthily) present, run `updateConfig`, then assign
the default descriptor fields and an empty `functions` map.  A JS throw
becomes an `Except.error`. -/
def ServerlessModule.construct (S : Serverless) (config : ModuleConfig) :
    Except SErr ServerlessModule :=
  if !(truthy config.component) || !(truthy config.module) then
    .error ⟨.config, "Missing required config.component or config.module"⟩
  else
    let cfg := updateConfig S ⟨none, none, none, none⟩ config
    .ok { _S := S, _config := cfg,
          fields := defaultFields (nameDefault cfg.module),
          functions := [] }

/-- A value supplied under `data.functions` to `set()`: either a raw
literal document or an already-live function entity instance (which
`set` must reject). -/
inductive FnInput where
  | literal (doc : JVal)
  | inst (fe : FunctionEntity)

/-- Is this `set()` input a live entity instance
(`data.functions[prop] instanceof Function`)? -/
def FnInput.isInst : FnInput → Bool
  | .literal _ => false
  | .inst _ => true

/-- The `data` object accepted by `set()`: its `functions` map and its
remaining top-level keys.  (The `fields` list carries every key other
than `functions`, which the structure keeps apart because its values
are not plain JSON.) -/
structure SetData where
  functions : List (String × FnInput)
  fields : List (String × JVal)

/-- Does `data.functions` contain a live entity instance anywhere? -/
def hasEntityInput (data : SetData) : Bool :=
  data.functions.any (fun kv => kv.2.isInst)

/-- One step of the `set()` loop body on a key that holds a literal:
construct the child entity bound to (component, module, key) and call
its own `set()` with the literal. -/
def materialize (component module : String) (kv : String × FnInput) :
    String × FunctionEntity :=
  (kv.1,
    match kv.2 with
    | .literal doc => (FunctionEntity.construct component module kv.1).set doc
    | .inst fe => fe)

/-- The `for (let prop in data.functions)` loop of `set()`: walk the
entries in order; throw on the first live instance encountered,
otherwise construct the child and call its `set()` with the literal,
replacing the entry. -/
def setFunctions (component module : String) :
    List (String × FnInput) → Except SErr (List (String × FunctionEntity))
  | [] => .ok []
  | (_, .inst _) :: _ =>
    .error ⟨.typeErr, "You cannot pass subclasses into the set method, only object literals"⟩
  | (k, .literal doc) :: rest =>
    match setFunctions component module rest with
    | .ok rest1 => .ok ((k, (FunctionEntity.construct component module k).set doc) :: rest1)
    | .error e => .error e

/-- `set(data)`: materialize every child under `data.functions`
(rejecting live instances), then `_.extend(this, data)` — the
`functions` property is replaced wholesale by the materialized map and
every other key of `data` is copied onto `this`.  The returned pair is
(the updated `this`, the post-call state of the caller-supplied `data`
object, whose `functions` entries were overwritten in place with the
live instances). -/
def ServerlessModule.set (m : ServerlessModule) (data : SetData) :
    Except SErr (ServerlessModule × SetData) :=
  let component := m._config.component.getD "undefined"
  let module := m._config.module.getD "undefined"
  match setFunctions component module data.functions with
  | .error e => .error e
  | .ok fns =>
    .ok ({ m with functions := fns,
                  fields := assignFields m.fields data.fields },
         { functions := fns.map (fun kv => (kv.1, FnInput.inst kv.2)),
           fields := data.fields })

/-- `get()`: `_.cloneDeep(this)`, replace every entry of the clone
`functions` map with that child entity own `get()`, then
`SUtils.exportClassData` — which strips the internal-only properties
(`_S`, `_config`); in this embedding those live outside `fields`, so
the exported document is the descriptor fields together with the
children documents under the `functions` key. -/
def ServerlessModule.get (m : ServerlessModule) : List (String × JVal) :=
  m.fields ++ [("functions", .obj (m.functions.map (fun kv => (kv.1, kv.2.get))))]

/-- The `options` object of `getPopulated`. -/
structure PopOptions where
  stage : Option String := none
  region : Option String := none

/-- The value `getPopulated` resolves with: the populated descriptor
fields and the `functions` map of populated child documents. -/
structure PopulatedModule where
  fields : List (String × JVal)
  functions : List (String × JVal)

/-- `getPopulated(options)`, as observed by the caller at resolution
time.  After the stage/region and project-path guards the code clones
the entity, clears the clone `functions` map, populates the clone, and
clears `functions` again.  It then fires, for every child of the
original entity, `child.getPopulated(options).then(...)` WITHOUT
returning or collecting those promises: the final continuation of the
chain (`return clone`) is scheduled as soon as the loop finishes, while
every child continuation still waits on that child own populate chain.
The promise therefore resolves with the `functions` map still empty;
the child results are attached to the object only by callbacks that run
after resolution (the known risk of spec section 4.5). -/
def ServerlessModule.getPopulated (m : ServerlessModule)
    (options : Option PopOptions) : Except SErr PopulatedModule :=
  let opts := options.getD {}
  if !(truthy opts.stage) || !(truthy opts.region) then
    .error ⟨.config, "Both \"stage\" and \"region\" params are required"⟩
  else if m._S.config.projectPath.isNone then
    .error ⟨.config, "Module could not be populated because no project path has been set on Serverless instance"⟩
  else
    .ok { fields := populateFields (opts.stage.getD "") (opts.region.getD "") m.fields,
          functions := [] }

/-- The state of the returned object after every child continuation has
eventually run: the same populated fields, with every child populated
result inserted under its key.  This is the eventual in-memory state of
the object `getPopulated` resolved with, not the value observed at
resolution. -/
def ServerlessModule.getPopulatedEventual (m : ServerlessModule)
    (options : Option PopOptions) : Except SErr PopulatedModule :=
  let opts := options.getD {}
  if !(truthy opts.stage) || !(truthy opts.region) then
    .error ⟨.config, "Both \"stage\" and \"region\" params are required"⟩
  else if m._S.config.projectPath.isNone then
    .error ⟨.config, "Module could not be populated because no project path has been set on Serverless instance"⟩
  else
    let stage := opts.stage.getD ""
    let region := opts.region.getD ""
    .ok { fields := populateFields stage region m.fields,
          functions := m.functions.map (fun kv => (kv.1, kv.2.getPopulated stage region)) }

/-- Modelled from the spec (sections 4.5 and 8): the specified
`getPopulated` — the populated form of the entity whose `functions` map
deterministically holds, for every original child, that child own
populated document; all child populations are joined before resolving. -/
def specGetPopulated (m : ServerlessModule) (options : Option PopOptions) :
    Except SErr PopulatedModule :=
  let opts := options.getD {}
  if !(truthy opts.stage) || !(truthy opts.region) then
    .error ⟨.config, "Both \"stage\" and \"region\" params are required"⟩
  else if m._S.config.projectPath.isNone then
    .error ⟨.config, "Module could not be populated because no project path has been set on Serverless instance"⟩
  else
    let stage := opts.stage.getD ""
    let region := opts.region.getD ""
    .ok { fields := populateFields stage region m.fields,
          functions := m.functions.map (fun kv => (kv.1, kv.2.getPopulated stage region)) }

/-- `_create()`: scaffolding — make the module directory and write an
empty templates document into it. -/
def ServerlessModule._create (m : ServerlessModule) (fs : FS) : Except SErr FS :=
  match m._config.fullPath with
  | none => .error ⟨.typeErr, "Arguments to path.join must be strings"⟩
  | some fp =>
    match fs.mkdir fp with
    | .error e => .error e
    | .ok fs1 => .ok (fs1.writeFile (fp ++ ["s-templates.json"]) (.obj []))

/-- The `options` object of `save`. -/
structure SaveOptions where
  deep : Bool := false

/-- The sequential child-save loop of `save({deep:true})`: saves the
children one at a time; a child failure aborts the rest. -/
def saveChildren (projectPath : FsPath) (fs : FS) :
    List (String × FunctionEntity) → Except SErr FS
  | [] => .ok fs
  | (_, fe) :: rest =>
    match fe.save projectPath fs with
    | .error e => .error e
    | .ok fs1 => saveChildren projectPath fs1 rest

/-- The scaffold stage of `save`: create the module directory and the
templates document when the descriptor document does not exist yet. -/
def saveScaffoldStep (m : ServerlessModule) (fp : FsPath) (fs : FS) :
    Except SErr FS :=
  if !(fs.fileExists (fp ++ [sModuleJson])) then m._create fs else .ok fs

/-- The deep stage of `save`: when `options.deep` is set, save every
child sequentially. -/
def saveDeepStep (m : ServerlessModule) (options : Option SaveOptions)
    (fs1 : FS) : Except SErr FS :=
  if (options.map SaveOptions.deep).getD false then
    saveChildren (m._S.config.projectPath.getD []) fs1 m.functions
  else .ok fs1

/-- `save(options)`: require a project root; scaffold via `_create`
when the descriptor document does not exist yet; when `options.deep` is
set, save every child sequentially; finally take the exportable
snapshot `get()`, delete its `functions` key, and write the remaining
document to the descriptor path.  Resolves with `this`. -/
def ServerlessModule.save (m : ServerlessModule) (options : Option SaveOptions)
    (fs : FS) : Except SErr (ServerlessModule × FS) :=
  if m._S.config.projectPath.isNone then
    .error ⟨.config, "Module could not be saved because no project path has been set on Serverless instance"⟩
  else
    match m._config.fullPath with
    | none => .error ⟨.typeErr, "Arguments to path.join must be strings"⟩
    | some fp =>
      match saveScaffoldStep m fp fs with
      | .error e => .error e
      | .ok fs1 =>
        match saveDeepStep m options fs1 with
        | .error e => .error e
        | .ok fs2 =>
          .ok (m, fs2.writeFile (fp ++ [sModuleJson]) (.obj (eraseKey "functions" m.get)))

/-- The `.each` child-discovery loop of `load()`: for every directory
entry that contains a function descriptor document, construct the child
bound to (component, module, entry) and run its own `load()`; entries
without a descriptor are skipped. -/
def loadFunctions (component module : String) (fp : FsPath) (fs : FS) :
    List String → Except SErr (List (String × FunctionEntity))
  | [] => .ok []
  | f :: rest =>
    if fs.fileExists (fp ++ [f, sFunctionJson]) then
      match FunctionEntity.load fs (fp ++ [f]) component module f with
      | .error e => .error e
      | .ok fe =>
        match loadFunctions component module fp fs rest with
        | .error e => .error e
        | .ok rest1 => .ok ((f, fe) :: rest1)
    else loadFunctions component module fp fs rest

/-- `load()`: require a project root and the descriptor document; read
and parse it; reset its `functions` field (children are rebuilt from
disk, not trusted from the document — here the reset is the
`eraseKey "functions"` at the merge, since discovered children are kept
apart); list the module directory and load every discovered child; then
`_.assign(this, moduleJson)` — descriptor keys overwrite the fields and
the `functions` property is replaced by the discovered children. -/
def ServerlessModule.load (m : ServerlessModule) (fs : FS) :
    Except SErr ServerlessModule :=
  if m._S.config.projectPath.isNone then
    .error ⟨.config, "Module could not be loaded because no project path has been set on Serverless instance"⟩
  else
    match m._config.fullPath with
    | none => .error ⟨.typeErr, "Arguments to path.join must be strings"⟩
    | some fp =>
      if !(fs.fileExists (fp ++ [sModuleJson])) then
        .error ⟨.config, "Module could not be loaded because it does not exist in your project: " ++ m._config.sPath.getD ""⟩
      else
        match fs.readJson (fp ++ [sModuleJson]) with
        | some (.obj kvs) =>
          match fs.readdir fp with
          | some contents =>
            match loadFunctions (m._config.component.getD "") (m._config.module.getD "") fp fs contents with
            | .error e => .error e
            | .ok fns =>
              .ok { m with fields := assignFields m.fields (eraseKey "functions" kvs),
                           functions := fns }
          | none => .error ⟨.config, "ENOENT: no such file or directory, scandir"⟩
        | some _ => .error ⟨.config, "Malformed module descriptor document"⟩
        | none => .error ⟨.config, "ENOENT: no such file or directory, open"⟩

/-- Did the operation succeed (resolve rather than throw)? -/
def isOkE {α : Type} : Except SErr α → Bool
  | .ok _ => true
  | .error _ => false

/-- The taxonomy bucket of the thrown error, when the operation threw. -/
def errKindE {α : Type} : Except SErr α → Option SErrKind
  | .ok _ => none
  | .error e => some e.kind

/-- The names of the live children of a module entity. -/
def childNames (m : ServerlessModule) : List String :=
  m.functions.map Prod.fst

/-- Every binding of `a` also holds in `b` (by key lookup). -/
def submapB (a b : List (String × JVal)) : Bool :=
  a.all (fun kv => optJEq (lookupF kv.1 b) (some kv.2))

/-- The two objects agree as key-value maps. -/
def mapEqB (a b : List (String × JVal)) : Bool :=
  submapB a b && submapB b a

/-- The two name lists agree as sets. -/
def sameSet (a b : List String) : Bool :=
  a.all b.contains && b.all a.contains

/-- Check a property of an optional module (false when absent). -/
def optCheck (o : Option ServerlessModule) (p : ServerlessModule → Bool) : Bool :=
  match o with
  | none => false
  | some m => p m

/-- The round trip of the specification (section 8): `save()` on the
entity, then a fresh `construct` on the equivalent identity, then
`load()` from the saved state. -/
def roundTrip (m : ServerlessModule) (fs : FS) : Option ServerlessModule :=
  match m.save none fs with
  | .error _ => none
  | .ok (_, fs1) =>
    match ServerlessModule.construct m._S
        { component := m._config.component, module := m._config.module } with
    | .error _ => none
    | .ok fresh => (fresh.load fs1).toOption

/-- The descriptor path of a module entity. -/
def modulePathOf (m : ServerlessModule) : FsPath :=
  m._config.fullPath.getD [] ++ [sModuleJson]

/-- The document persisted at the descriptor path by `save`. -/
def savedModuleDoc (m : ServerlessModule) (options : Option SaveOptions)
    (fs : FS) : Option JVal :=
  match m.save options fs with
  | .ok (_, fs1) => fs1.files (modulePathOf m)
  | .error _ => none

/-- The entity `save` resolves with. -/
def savedSelf (m : ServerlessModule) (options : Option SaveOptions)
    (fs : FS) : Option ServerlessModule :=
  (m.save options fs).toOption.map Prod.fst

/-- The post-call state of the caller-supplied `data` argument of
`set()` (the in-place mutation the caller observes). -/
def setDataOut (m : ServerlessModule) (data : SetData) : Option SetData :=
  (m.set data).toOption.map Prod.snd

/-- The descriptor fields of a freshly constructed entity. -/
def constructFieldsOf (S : Serverless) (config : ModuleConfig) :
    Option (List (String × JVal)) :=
  (ServerlessModule.construct S config).toOption.map ServerlessModule.fields

/-- The `functions` map of a freshly constructed entity. -/
def constructFunctionsOf (S : Serverless) (config : ModuleConfig) :
    Option (List (String × FunctionEntity)) :=
  (ServerlessModule.construct S config).toOption.map ServerlessModule.functions

/-!  Concrete instances used as failing inputs and witnesses.  -/

/-- A Serverless context whose project root is set. -/
def S0 : Serverless := ⟨⟨some ["proj"]⟩⟩

/-- A Serverless context with no project root. -/
def SNoRoot : Serverless := ⟨⟨none⟩⟩

/-- A valid constructor config. -/
def cfg0 : ModuleConfig := { component := some "compone", module := some "modone" }

/-- The `_config` block `construct S0 cfg0` derives. -/
def mcfg0 : MConfig :=
  ⟨some "compone", some "modone", some "compone/modone",
   some ["proj", "compone", "modone"]⟩

/-- A live child function entity holding a stage placeholder. -/
def feone : FunctionEntity :=
  ⟨"compone", "modone", "fnone", [("endpoint", JVal.str "url-$\x7bstage\x7d")]⟩

/-- A module entity with a set project root and one live child. -/
def m1 : ServerlessModule :=
  ⟨S0, mcfg0, defaultFields "modone", [("fnone", feone)]⟩

/-- A module entity with a set project root and no children. -/
def m0 : ServerlessModule :=
  ⟨S0, mcfg0, defaultFields "modone", []⟩

/-- A module entity whose context has no project root. -/
def mNoRoot : ServerlessModule :=
  ⟨SNoRoot, ⟨some "compone", some "modone", some "compone/modone", none⟩,
   defaultFields "modone", []⟩

/-- Valid stage/region options. -/
def optsDev : Option PopOptions :=
  some { stage := some "dev", region := some "useastone" }

/-- A filesystem holding only the project scaffold: the project root
and the component directory, no module directory and no documents. -/
def fsScaffold : FS :=
  ⟨fun _ => none,
   fun q =>
     if q = ["proj", "compone"] then some [] else
     if q = ["proj"] then some ["compone"] else none⟩

/-- A filesystem in the state a deep save leaves behind: the module
descriptor document, the child function document, and the module
directory listing both. -/
def fsLoaded : FS :=
  ⟨fun q =>
     if q = ["proj", "compone", "modone", "s-module.json"] then
       some (.obj []) else
     if q = ["proj", "compone", "modone", "fnone", "s-function.json"] then
       some (.obj [("handler", .str "handler.run")]) else none,
   fun q =>
     if q = ["proj", "compone", "modone"] then
       some ["fnone", "s-module.json"] else
     if q = ["proj", "compone"] then some ["modone"] else
     if q = ["proj"] then some ["compone"] else none⟩

/-- A literal child document for `set()`. -/
def litDoc : JVal := .obj [("memory", .num 1024)]

/-- A `set()` input whose `functions` map holds only literals. -/
def dataLit : SetData :=
  ⟨[("fnone", .literal litDoc)], [("description", .str "updated")]⟩

/-- A `set()` input whose `functions` map holds a live instance. -/
def dataInst : SetData :=
  ⟨[("fnone", .inst feone)], []⟩

/-!
Identity-labelled documents, for the sharing claim about `get()`.

`_.cloneDeep` hands back a structurally equal object graph made of
fresh nodes.  To state "no shared mutable references" in a pure
embedding, every mutable object node carries an allocation identity;
two object graphs share mutable state exactly when they share a node
identity, and a heap write at identity `t` rewrites every node carrying
`t` wherever it is reachable.  Deep cloning is then relabelling with
fresh identities, and the independence claim is that the identities of
the returned snapshot are disjoint from those of the live entity.
-/

/-- A document tree whose object nodes carry allocation identities;
leaves are immutable JS primitives. -/
inductive IdDoc where
  | leaf (s : String)
  | node (id : Nat) (fields : List (String × IdDoc))

mutual
/-- All allocation identities occurring in a document. -/
def IdDoc.ids : IdDoc → List Nat
  | .leaf _ => []
  | .node i fields => i :: idsFields fields

/-- All allocation identities occurring in a field list. -/
def idsFields : List (String × IdDoc) → List Nat
  | [] => []
  | (_, d) :: rest => d.ids ++ idsFields rest
end

mutual
/-- Relabel every node identity by adding an offset: a deep clone whose
nodes are fresh whenever the offset exceeds every live identity. -/
def shiftIds (c : Nat) : IdDoc → IdDoc
  | .leaf s => .leaf s
  | .node i fields => .node (i + c) (shiftIdsFields c fields)

/-- Relabel a field list. -/
def shiftIdsFields (c : Nat) : List (String × IdDoc) → List (String × IdDoc)
  | [] => []
  | (k, d) :: rest => (k, shiftIds c d) :: shiftIdsFields c rest
end

/-- Field update on identity-labelled documents (`obj[k] = leaf`). -/
def upsertI : List (String × IdDoc) → String → IdDoc → List (String × IdDoc)
  | [], k, v => [(k, v)]
  | (k0, v0) :: rest, k, v =>
    if k0 = k then (k, v) :: rest else (k0, v0) :: upsertI rest k v

mutual
/-- A heap write: at every node carrying identity `t`, set field `k` to
the primitive `s`.  Nodes not carrying `t` are traversed unchanged, so
a graph that nowhere carries `t` is unaffected — the formal content of
"no shared mutable references". -/
def setFieldAt (t : Nat) (k s : String) : IdDoc → IdDoc
  | .leaf x => .leaf x
  | .node i fields =>
    let fields1 := setFieldsAt t k s fields
    .node i (if i = t then upsertI fields1 k (.leaf s) else fields1)

/-- The heap write, over a field list. -/
def setFieldsAt (t : Nat) (k s : String) :
    List (String × IdDoc) → List (String × IdDoc)
  | [] => []
  | (k0, d) :: rest => (k0, setFieldAt t k s d) :: setFieldsAt t k s rest
end

/-- The heap view of a module entity for the sharing claim: its
descriptor fields and the state of its children, as identity-labelled
documents. -/
structure ModuleI where
  fields : List (String × IdDoc)
  functions : List (String × IdDoc)

/-- The largest allocation identity reachable from the live entity. -/
def ModuleI.maxId (m : ModuleI) : Nat :=
  (idsFields m.fields ++ idsFields m.functions).foldr max 0

/-- `get()` on the heap view: `_.cloneDeep(this)` relabels every node
of the descriptor fields with fresh identities; every child entry is
replaced by the child own `get()`, itself a fresh deep copy of the
child state; the `functions` container of the snapshot is itself a
fresh node.  `n` is the allocation frontier: with `maxId m < n`, every
identity of the snapshot is fresh. -/
def ModuleI.getI (m : ModuleI) (n : Nat) : List (String × IdDoc) :=
  shiftIdsFields (n + 1) m.fields ++
    [("functions", .node n (shiftIdsFields (n + 1) m.functions))]

/-- A heap write as it reaches the live entity: rewrite every node of
the entity that carries the written identity. -/
def ModuleI.writeAt (t : Nat) (k s : String) (m : ModuleI) : ModuleI :=
  ⟨setFieldsAt t k s m.fields, setFieldsAt t k s m.functions⟩

/-- A concrete heap view: two descriptor nodes and one child. -/
def mI : ModuleI :=
  ⟨[("custom", .node 0 [("a", .leaf "x")])],
   [("fnone", .node 1 [("endpoint", .leaf "url")])]⟩


/-- Is this read result absent or a JSON object (the shapes a child
descriptor read can take without failing the parse)? -/
def isObjOpt : Option JVal → Bool
  | none => true
  | some (.obj _) => true
  | some _ => false

/-- The entity of the C2 scenario: constructed on a valid identity with
a project root, then given one child through `set`. -/
def mC2 : Option ServerlessModule :=
  (ServerlessModule.construct S0 cfg0).toOption.bind
    (fun m => (m.set dataLit).toOption.map Prod.fst)

/-- The entity `construct` produces on identity (c, mdl) under a known
project root (the absolute directory coming out as `fp`). -/
def freshModule (S : Serverless) (c mdl : String) (fp : FsPath) : ServerlessModule :=
  { _S := S,
    _config := ⟨some c, some mdl, some (buildSPath (some c) (some mdl)), some fp⟩,
    fields := defaultFields (nameDefault (some mdl)),
    functions := [] }

/-!  Lemmas about the JS object primitives.  -/

/-- First-biased choice of optional documents. -/
def optOr : Option JVal → Option JVal → Option JVal
  | some v, _ => some v
  | none, o => o

mutual
theorem JVal.beq_refl : ∀ v : JVal, JVal.beq v v = true
  | .null => rfl
  | .bool b => by simp [JVal.beq]
  | .num n => by simp [JVal.beq]
  | .str s => by simp [JVal.beq]
  | .arr xs => by simpa [JVal.beq] using beqJList_refl xs
  | .obj kvs => by simpa [JVal.beq] using beqJFields_refl kvs

theorem beqJList_refl : ∀ xs : List JVal, beqJList xs xs = true
  | [] => rfl
  | x :: xs => by simp [beqJList, JVal.beq_refl x, beqJList_refl xs]

theorem beqJFields_refl : ∀ kvs : List (String × JVal), beqJFields kvs kvs = true
  | [] => rfl
  | (k, v) :: kvs => by simp [beqJFields, JVal.beq_refl v, beqJFields_refl kvs]
end

theorem optJEq_refl (o : Option JVal) : optJEq o o = true := by
  cases o with
  | none => rfl
  | some v => simpa [optJEq] using JVal.beq_refl v

theorem optOr_none (o : Option JVal) : optOr o none = o := by
  cases o <;> rfl



theorem lookupF_eq_none_of_not_mem (l : List (String × JVal)) (k : String)
    (h : k ∉ keysF l) : lookupF k l = none := by
  induction l with
  | nil => rfl
  | cons kv rest ih =>
    simp only [keysF, List.map_cons, List.mem_cons] at h
    push_neg at h
    have h1 : ¬kv.1 = k := fun hh => h.1 hh.symm
    simp [lookupF, h1, ih (by simpa [keysF] using h.2)]

theorem mem_keysF_of_lookupF_isSome (l : List (String × JVal)) (k : String)
    (h : (lookupF k l).isSome = true) : k ∈ keysF l := by
  by_contra hc
  rw [lookupF_eq_none_of_not_mem l k hc] at h
  simp at h

theorem lookupF_append (a b : List (String × JVal)) (k : String) :
    lookupF k (a ++ b) = optOr (lookupF k a) (lookupF k b) := by
  induction a with
  | nil => simp [lookupF, optOr]
  | cons kv rest ih =>
    by_cases h : kv.1 = k
    · simp [lookupF, h, optOr]
    · simp [lookupF, h, ih]

theorem lookup_upsert (l : List (String × JVal)) (k k1 : String) (v : JVal) :
    lookupF k1 (upsert l k v) = if k1 = k then some v else lookupF k1 l := by
  induction l with
  | nil =>
    simp only [upsert, lookupF]
    by_cases h : k1 = k
    · simp [h]
    · rw [if_neg (fun hh : k = k1 => h hh.symm), if_neg h]
  | cons kv rest ih =>
    by_cases h0 : kv.1 = k
    · rw [show upsert (kv :: rest) k v = (k, v) :: rest from by simp [upsert, h0]]
      by_cases h1 : k1 = k
      · simp [lookupF, h1]
      · have : ¬k = k1 := fun hh => h1 hh.symm
        simp [lookupF, this, h0 ▸ this, h1]
    · rw [show upsert (kv :: rest) k v = kv :: upsert rest k v from by simp [upsert, h0]]
      by_cases h1 : kv.1 = k1
      · have h2 : ¬k1 = k := fun hh => h0 (h1.symm ▸ hh)
        simp [lookupF, h1, h2]
      · simp [lookupF, h1, ih]

theorem keysF_upsert (l : List (String × JVal)) (k : String) (v : JVal) :
    keysF (upsert l k v) = if k ∈ keysF l then keysF l else keysF l ++ [k] := by
  induction l with
  | nil => simp [upsert, keysF]
  | cons kv rest ih =>
    by_cases h0 : kv.1 = k
    · rw [show upsert (kv :: rest) k v = (k, v) :: rest from by simp [upsert, h0]]
      simp [keysF, h0]
    · rw [show upsert (kv :: rest) k v = kv :: upsert rest k v from by simp [upsert, h0]]
      have h1 : ¬k = kv.1 := fun hh => h0 hh.symm
      simp only [keysF, List.map_cons] at ih ⊢
      rw [ih]
      by_cases h2 : k ∈ List.map Prod.fst rest
      · simp [h2, h1]
      · simp [h2, h1]

theorem nodup_keysF_upsert (l : List (String × JVal)) (k : String) (v : JVal)
    (h : (keysF l).Nodup) : (keysF (upsert l k v)).Nodup := by
  rw [keysF_upsert]
  by_cases h0 : k ∈ keysF l
  · simpa [h0] using h
  · simp only [h0, if_false]
    simpa [List.nodup_append, h0] using h

theorem lookup_assignFields (s : List (String × JVal)) :
    ∀ t k, (keysF s).Nodup →
      lookupF k (assignFields t s) = optOr (lookupF k s) (lookupF k t) := by
  induction s with
  | nil => intro t k _; simp [assignFields, lookupF, optOr]
  | cons kv rest ih =>
    intro t k hnd
    simp only [keysF, List.map_cons, List.nodup_cons] at hnd
    rw [show assignFields t (kv :: rest) = assignFields (upsert t kv.1 kv.2) rest from rfl]
    rw [ih (upsert t kv.1 kv.2) k (by simpa [keysF] using hnd.2)]
    rw [lookup_upsert]
    by_cases h1 : k = kv.1
    · have hnone : lookupF kv.1 rest = none :=
        lookupF_eq_none_of_not_mem rest kv.1 (by simpa [keysF] using hnd.1)
      simp [lookupF, hnone, h1, optOr]
    · have h2 : ¬kv.1 = k := fun hh => h1 hh.symm
      simp [lookupF, h2, h1]

theorem nodup_keysF_assignFields (s : List (String × JVal)) :
    ∀ t, (keysF t).Nodup → (keysF (assignFields t s)).Nodup := by
  induction s with
  | nil => intro t ht; simpa [assignFields] using ht
  | cons kv rest ih =>
    intro t ht
    exact ih (upsert t kv.1 kv.2) (nodup_keysF_upsert t kv.1 kv.2 ht)

theorem lookupF_of_mem_nodup (l : List (String × JVal)) (k : String) (v : JVal)
    (hnd : (keysF l).Nodup) (hm : (k, v) ∈ l) : lookupF k l = some v := by
  induction l with
  | nil => cases hm
  | cons kv rest ih =>
    simp only [keysF, List.map_cons, List.nodup_cons] at hnd
    rcases List.mem_cons.mp hm with h | h
    · subst h
      simp [lookupF]
    · have h1 : ¬kv.1 = k := by
        intro hh
        exact hnd.1 (hh ▸ (List.mem_map.mpr ⟨(k, v), h, rfl⟩))
      simp [lookupF, h1, ih (by simpa [keysF] using hnd.2) h]

theorem mem_of_lookupF_eq_some (l : List (String × JVal)) (k : String) (v : JVal)
    (h : lookupF k l = some v) : (k, v) ∈ l := by
  induction l with
  | nil => cases h
  | cons kv rest ih =>
    by_cases h1 : kv.1 = k
    · rw [lookupF, if_pos h1] at h
      injection h with h2
      exact List.mem_cons.mpr (Or.inl (by rw [← h1, ← h2]))
    · rw [lookupF, if_neg h1] at h
      exact List.mem_cons.mpr (Or.inr (ih h))

theorem mapEqB_of_lookup_eq (a b : List (String × JVal))
    (ha : (keysF a).Nodup) (hb : (keysF b).Nodup)
    (hpt : ∀ k, lookupF k a = lookupF k b) : mapEqB a b = true := by
  have sub : ∀ (x y : List (String × JVal)), (keysF x).Nodup →
      (∀ k, lookupF k x = lookupF k y) → submapB x y = true := by
    intro x y hx hxy
    rw [submapB, List.all_eq_true]
    intro kv hm
    have : lookupF kv.1 y = some kv.2 := (hxy kv.1) ▸ lookupF_of_mem_nodup x kv.1 kv.2 hx hm
    rw [this]
    exact optJEq_refl (some kv.2)
  rw [mapEqB, sub a b ha hpt, sub b a hb (fun k => (hpt k).symm)]
  rfl

theorem eraseKey_of_lookup_none (l : List (String × JVal)) (k : String)
    (h : lookupF k l = none) : eraseKey k l = l := by
  induction l with
  | nil => rfl
  | cons kv rest ih =>
    by_cases h1 : kv.1 = k
    · rw [lookupF, if_pos h1] at h
      cases h
    · rw [lookupF, if_neg h1] at h
      simp [eraseKey, List.filter_cons, bne_iff_ne, h1] at ih ⊢
      exact ih h

theorem lookupF_eraseKey_self (l : List (String × JVal)) (k : String) :
    lookupF k (eraseKey k l) = none := by
  induction l with
  | nil => rfl
  | cons kv rest ih =>
    by_cases h1 : kv.1 = k
    · simpa [eraseKey, List.filter_cons, bne_iff_ne, h1] using ih
    · simpa [eraseKey, List.filter_cons, bne_iff_ne, h1, lookupF] using ih

theorem eraseKey_append (k : String) (a b : List (String × JVal)) :
    eraseKey k (a ++ b) = eraseKey k a ++ eraseKey k b := by
  simp [eraseKey, List.filter_append]

/-!  Lemmas about the filesystem model.  -/

theorem dropLast_snoc (p : FsPath) (a : String) : (p ++ [a]).dropLast = p := by
  simp

theorem getLastQ_snoc (p : FsPath) (a : String) : (p ++ [a]).getLast? = some a := by
  simp [List.getLast?_append]

theorem snoc_ne_snoc_two (p : FsPath) (a b c : String) :
    p ++ [a] ≠ p ++ [b, c] := by
  intro h
  have := congrArg List.length h
  simp at this

theorem writeFile_files_self (fs : FS) (p : FsPath) (v : JVal) :
    (fs.writeFile p v).files p = some v := by
  simp [FS.writeFile]

theorem writeFile_files_ne (fs : FS) (p q : FsPath) (v : JVal) (h : q ≠ p) :
    (fs.writeFile p v).files q = fs.files q := by
  simp [FS.writeFile, h]

theorem writeFile_fileExists_ne (fs : FS) (p q : FsPath) (v : JVal) (h : q ≠ p) :
    (fs.writeFile p v).fileExists q = fs.fileExists q := by
  simp [FS.fileExists, writeFile_files_ne fs p q v h]

theorem writeFile_dirs_parent (fs : FS) (p : FsPath) (a : String) (v : JVal) :
    (fs.writeFile (p ++ [a]) v).dirs p =
      (fs.dirs p).map (fun entries => addEntry entries a) := by
  simp [FS.writeFile]

/-!  Lemmas about identity-labelled documents.  -/

theorem le_foldr_max (l : List Nat) (a : Nat) (h : a ∈ l) :
    a ≤ l.foldr max 0 := by
  induction l with
  | nil => cases h
  | cons x xs ih =>
    rcases List.mem_cons.mp h with h | h
    · subst h
      exact Nat.le_max_left _ _
    · exact Nat.le_trans (ih h) (Nat.le_max_right _ _)

mutual
theorem ids_shift (c : Nat) : ∀ d : IdDoc, (shiftIds c d).ids = d.ids.map (· + c)
  | .leaf s => rfl
  | .node i fields => by
    simp [shiftIds, IdDoc.ids, idsFields_shift c fields]

theorem idsFields_shift (c : Nat) : ∀ fields : List (String × IdDoc),
    idsFields (shiftIdsFields c fields) = (idsFields fields).map (· + c)
  | [] => rfl
  | (k, d) :: rest => by
    simp [shiftIdsFields, idsFields, ids_shift c d, idsFields_shift c rest]
end

mutual
theorem setFieldAt_of_not_mem (t : Nat) (k s : String) :
    ∀ d : IdDoc, t ∉ d.ids → setFieldAt t k s d = d
  | .leaf x, _ => rfl
  | .node i fields, h => by
    simp only [IdDoc.ids, List.mem_cons] at h
    push_neg at h
    simp [setFieldAt, Ne.symm h.1, setFieldsAt_of_not_mem t k s fields h.2]

theorem setFieldsAt_of_not_mem (t : Nat) (k s : String) :
    ∀ fields : List (String × IdDoc), t ∉ idsFields fields →
      setFieldsAt t k s fields = fields
  | [], _ => rfl
  | (k0, d) :: rest, h => by
    simp only [idsFields, List.mem_append] at h
    push_neg at h
    simp [setFieldsAt, setFieldAt_of_not_mem t k s d h.1,
      setFieldsAt_of_not_mem t k s rest h.2]
end

/-!  Further helper lemmas for the operation theorems.  -/

theorem idsFields_append (a b : List (String × IdDoc)) :
    idsFields (a ++ b) = idsFields a ++ idsFields b := by
  induction a with
  | nil => simp [idsFields]
  | cons kv rest ih =>
    cases kv with
    | mk k d => simp [idsFields, ih]

theorem materialize_fst (c md : String) (kv : String × FnInput) :
    (materialize c md kv).1 = kv.1 := by
  cases kv with
  | mk k fi => cases fi <;> rfl

theorem setFunctions_spec (c md : String) (l : List (String × FnInput)) :
    setFunctions c md l =
      if l.any (fun kv => kv.2.isInst) then
        .error ⟨.typeErr, "You cannot pass subclasses into the set method, only object literals"⟩
      else .ok (l.map (materialize c md)) := by
  induction l with
  | nil => simp [setFunctions]
  | cons kv rest ih =>
    cases kv with
    | mk k fi =>
      cases fi with
      | inst fe => simp [setFunctions, FnInput.isInst, List.any_cons]
      | literal doc =>
        have hh : ((k, FnInput.literal doc) :: rest).any (fun kv => kv.2.isInst)
            = rest.any (fun kv => kv.2.isInst) := by
          simp [List.any_cons, FnInput.isInst]
        rw [setFunctions, ih, hh]
        cases h : rest.any (fun kv => kv.2.isInst) with
        | true => simp
        | false => simp [materialize]

/-!  The claim theorems.  -/

/-- C5, counterexample: the claim says construction fails exactly when
the config lacks BOTH names, so a config carrying a component name but
no module name should construct successfully; the code throws on it
(`!config.component || !config.module`). -/
theorem construct_one_name_counterexample :
    isOkE (ServerlessModule.construct S0 ⟨some "compone", none⟩) = false
    ∧ truthy (some "compone") = true :=
  ⟨rfl, rfl⟩

/-- C5, amended: construction fails with a ConfigError exactly when the
config lacks a component name OR lacks a module name (JS-truthily);
with both names supplied it succeeds. -/
theorem construct_requires_both_names (S : Serverless) (config : ModuleConfig) :
    isOkE (ServerlessModule.construct S config)
        = (truthy config.component && truthy config.module)
    ∧ errKindE (ServerlessModule.construct S config)
        = (if truthy config.component && truthy config.module then none
           else some SErrKind.config) := by
  unfold ServerlessModule.construct
  cases h1 : truthy config.component <;> cases h2 : truthy config.module <;>
    simp [h1, h2, isOkE, errKindE]

/-- C6: for a valid identity, construction yields exactly the declared
default descriptor: version 0.0.1, runtime nodejs, empty custom and
functions maps, empty infrastructure fragments, and the name taken from
the supplied module name; the generated-short-identifier fallback is
what the name default degenerates to when no name is supplied (a case
constructor validation makes unreachable). -/
theorem construct_yields_default_descriptor (S : Serverless)
    (config : ModuleConfig)
    (h1 : truthy config.component = true) (h2 : truthy config.module = true) :
    constructFieldsOf S config =
      some [("name", .str (config.module.getD "")),
            ("version", .str "0.0.1"),
            ("profile", .str ("aws-v" ++ packageVersion)),
            ("location", .str "https://github.com/..."),
            ("author", .str ""),
            ("description", .str "A Serverless Module"),
            ("runtime", .str "nodejs"),
            ("custom", .obj []),
            ("cloudFormation", .obj
              [("resources", .obj []),
               ("lambdaIamPolicyDocumentStatements", .arr [])])]
    ∧ constructFunctionsOf S config = some []
    ∧ nameDefault none = "module" ++ generateShortId 6 := by
  refine ⟨?_, ?_, rfl⟩
  · unfold constructFieldsOf ServerlessModule.construct updateConfig
    rw [h1, h2]
    cases hp : S.config.projectPath <;>
      simp [nameDefault, h2, defaultFields, Except.toOption]
  · unfold constructFunctionsOf ServerlessModule.construct updateConfig
    rw [h1, h2]
    cases hp : S.config.projectPath <;>
      simp [nameDefault, h2, defaultFields, Except.toOption]

/-- C6 witness. -/
theorem construct_yields_default_descriptor_witness :
    truthy cfg0.component = true ∧ truthy cfg0.module = true
    ∧ constructFunctionsOf S0 cfg0 = some [] :=
  ⟨rfl, rfl, (construct_yields_default_descriptor S0 cfg0 rfl rfl).2.1⟩

/-- C8: `getPopulated` succeeds exactly when stage, region and the
project root are all present; whenever one is missing it throws a
ConfigError (the stage/region guard firing before the project-root
guard). -/
theorem getPopulated_requires_stage_region_root (m : ServerlessModule)
    (options : Option PopOptions) :
    isOkE (m.getPopulated options)
        = (truthy (options.getD {}).stage && truthy (options.getD {}).region
            && m._S.config.projectPath.isSome)
    ∧ errKindE (m.getPopulated options)
        = (if truthy (options.getD {}).stage && truthy (options.getD {}).region
              && m._S.config.projectPath.isSome
           then none else some SErrKind.config) := by
  unfold ServerlessModule.getPopulated
  cases h1 : truthy (options.getD {}).stage <;>
  cases h2 : truthy (options.getD {}).region <;>
  cases h3 : m._S.config.projectPath <;>
    simp [h1, h2, h3, isOkE, errKindE]

/-- C3: `set(data)` throws the TypeError-class error exactly when some
value under `data.functions` is a live entity instance; otherwise it
constructs a child per key, calls that child own `set()` with the
literal, stores the live instance under the same key, merges the rest
of `data` onto the entity, and returns the updated `this` (together
with the mutated `data`). -/
theorem set_rejects_instances_accepts_literals (m : ServerlessModule)
    (data : SetData) :
    m.set data =
      (if hasEntityInput data then
        .error ⟨.typeErr, "You cannot pass subclasses into the set method, only object literals"⟩
      else
        .ok ({ m with
                functions := data.functions.map
                  (materialize (m._config.component.getD "undefined")
                    (m._config.module.getD "undefined")),
                fields := assignFields m.fields data.fields },
             { functions := (data.functions.map
                  (materialize (m._config.component.getD "undefined")
                    (m._config.module.getD "undefined"))).map
                  (fun kv => (kv.1, FnInput.inst kv.2)),
               fields := data.fields })) := by
  unfold ServerlessModule.set hasEntityInput
  dsimp only
  rw [setFunctions_spec]
  cases h : data.functions.any (fun kv => kv.2.isInst) with
  | true => simp
  | false => simp

/-- C10: on all-literal input, `set(data)` overwrites the entries of
the caller-supplied `data.functions` in place: afterwards every entry
holds the newly constructed live instance and no literal remains. -/
theorem set_mutates_caller_argument (m : ServerlessModule) (data : SetData)
    (h : hasEntityInput data = false) :
    setDataOut m data =
      some { functions := data.functions.map (fun kv =>
               (kv.1, FnInput.inst
                 (materialize (m._config.component.getD "undefined")
                   (m._config.module.getD "undefined") kv).2)),
             fields := data.fields }
    ∧ (setDataOut m data).map (fun d => d.functions.any (fun kv => !(kv.2.isInst)))
        = some false := by
  have hmain : setDataOut m data =
      some { functions := data.functions.map (fun kv =>
               (kv.1, FnInput.inst
                 (materialize (m._config.component.getD "undefined")
                   (m._config.module.getD "undefined") kv).2)),
             fields := data.fields } := by
    unfold setDataOut ServerlessModule.set
    dsimp only
    rw [setFunctions_spec]
    unfold hasEntityInput at h
    rw [h]
    simp [Except.toOption, List.map_map, Function.comp, materialize_fst]
  refine ⟨hmain, ?_⟩
  rw [hmain]
  simp [FnInput.isInst, List.any_map, Function.comp]

/-- C10 witness. -/
theorem set_mutates_caller_argument_witness :
    hasEntityInput dataLit = false
    ∧ setDataOut m0 dataLit =
      some { functions := dataLit.functions.map (fun kv =>
               (kv.1, FnInput.inst
                 (materialize (m0._config.component.getD "undefined")
                   (m0._config.module.getD "undefined") kv).2)),
             fields := dataLit.fields } :=
  ⟨rfl, (set_mutates_caller_argument m0 dataLit rfl).1⟩

/-- C7: `load()` throws the no-project-path ConfigError whenever the
owning context has no project root, and the module-not-found
ConfigError whenever the root is set but no descriptor document exists
at the absolute location.  (In the embedding a failing load returns
only the error, leaving the entity value untouched, which is the
in-memory-state-unchanged part of the claim.) -/
theorem load_fails_without_root_or_descriptor (m : ServerlessModule) (fs : FS)
    (pp fp : FsPath) :
    (m._S.config.projectPath = none →
      m.load fs = .error ⟨.config,
        "Module could not be loaded because no project path has been set on Serverless instance"⟩)
    ∧ (m._S.config.projectPath = some pp → m._config.fullPath = some fp →
        fs.fileExists (fp ++ [sModuleJson]) = false →
        m.load fs = .error ⟨.config,
          "Module could not be loaded because it does not exist in your project: "
            ++ m._config.sPath.getD ""⟩) := by
  constructor
  · intro h
    unfold ServerlessModule.load
    simp [h]
  · intro h1 h2 h3
    unfold ServerlessModule.load
    simp [h1, h2, h3]

/-- C7 witness: the no-root case on an entity without a project root,
and the missing-descriptor case on a scaffold with no module document. -/
theorem load_fails_witness :
    mNoRoot.load fsScaffold = .error ⟨.config,
      "Module could not be loaded because no project path has been set on Serverless instance"⟩
    ∧ m0.load fsScaffold = .error ⟨.config,
      "Module could not be loaded because it does not exist in your project: "
        ++ m0._config.sPath.getD ""⟩ :=
  ⟨(load_fails_without_root_or_descriptor mNoRoot fsScaffold [] []).1 rfl,
   (load_fails_without_root_or_descriptor m0 fsScaffold ["proj"]
      ["proj", "compone", "modone"]).2 rfl rfl rfl⟩

/-- C9: whenever `save` succeeds it has written, at the descriptor
path, exactly the exportable snapshot `get()` with the `functions`
field stripped — so the persisted module document never carries a
`functions` key — and it resolves with `this`. -/
theorem save_persists_get_without_functions (m : ServerlessModule)
    (options : Option SaveOptions) (fs : FS)
    (h : isOkE (m.save options fs) = true) :
    savedModuleDoc m options fs = some (.obj (eraseKey "functions" m.get))
    ∧ lookupF "functions" (eraseKey "functions" m.get) = none
    ∧ savedSelf m options fs = some m := by
  by_cases hroot : m._S.config.projectPath.isNone = true
  · rw [ServerlessModule.save] at h
    simp [hroot, isOkE] at h
  · cases hfp : m._config.fullPath with
    | none =>
      rw [ServerlessModule.save] at h
      simp [hroot, hfp, isOkE] at h
    | some fp =>
      cases hc : saveScaffoldStep m fp fs with
      | error e =>
        rw [ServerlessModule.save] at h
        simp [hroot, hfp, hc, isOkE] at h
      | ok fs1 =>
        cases hd : saveDeepStep m options fs1 with
        | error e =>
          rw [ServerlessModule.save] at h
          simp [hroot, hfp, hc, hd, isOkE] at h
        | ok fs2 =>
          refine ⟨?_, lookupF_eraseKey_self _ _, ?_⟩
          · unfold savedModuleDoc ServerlessModule.save modulePathOf
            simp [hroot, hfp, hc, hd, writeFile_files_self]
          · unfold savedSelf ServerlessModule.save
            simp [hroot, hfp, hc, hd, Except.toOption]

/-- C9 witness: a successful save of the childless entity onto the
bare project scaffold. -/
theorem save_persists_witness :
    isOkE (m0.save none fsScaffold) = true
    ∧ savedModuleDoc m0 none fsScaffold = some (.obj (eraseKey "functions" m0.get)) :=
  ⟨rfl, (save_persists_get_without_functions m0 none fsScaffold rfl).1⟩

/-- C1: on a module with a set project root, valid options and one
child, the promise `getPopulated` returns resolves while its
`functions` map is still empty — the child continuations are not
joined — whereas the specified behaviour (specGetPopulated) carries the
child own populated document under its key.  The claim, which requires
the resolved copy to deterministically contain every child result, is
the behaviour of the specification, not of the code. -/
theorem getPopulated_resolves_without_child_results :
    (m1.getPopulated optsDev).map PopulatedModule.functions = .ok []
    ∧ (specGetPopulated m1 optsDev).map PopulatedModule.functions
        = .ok [("fnone", .obj [("endpoint", .str "url-dev")])]
    ∧ childNames m1 = ["fnone"] :=
  ⟨rfl, rfl, rfl⟩

/-- C4: the snapshot `get()` returns shares no allocation identity with
the live entity, so a heap write through any identity reachable from
the snapshot leaves the entity — and hence every subsequent `get()` —
unchanged. -/
theorem get_snapshot_shares_no_state (m : ModuleI) (n t n1 : Nat) (k s : String)
    (hn : m.maxId < n) (ht : t ∈ idsFields (m.getI n)) :
    m.writeAt t k s = m ∧ (m.writeAt t k s).getI n1 = m.getI n1 := by
  have hlt : ∀ i, i ∈ idsFields m.fields ∨ i ∈ idsFields m.functions → i < n := by
    intro i hi
    refine Nat.lt_of_le_of_lt (le_foldr_max _ i ?_) hn
    rcases hi with hi | hi
    · exact List.mem_append.mpr (Or.inl hi)
    · exact List.mem_append.mpr (Or.inr hi)
  have htn : n ≤ t := by
    unfold ModuleI.getI at ht
    rw [idsFields_append] at ht
    rcases List.mem_append.mp ht with h | h
    · rw [idsFields_shift] at h
      rcases List.mem_map.mp h with ⟨x, _, hx⟩
      omega
    · simp only [idsFields, IdDoc.ids, List.append_nil, List.mem_cons] at h
      rcases h with h | h
      · omega
      · rw [idsFields_shift] at h
        rcases List.mem_map.mp (by simpa using h) with ⟨x, _, hx⟩
        omega
  have hnf : t ∉ idsFields m.fields := fun hm => by
    have := hlt t (Or.inl hm)
    omega
  have hnc : t ∉ idsFields m.functions := fun hm => by
    have := hlt t (Or.inr hm)
    omega
  have hw : m.writeAt t k s = m := by
    unfold ModuleI.writeAt
    rw [setFieldsAt_of_not_mem t k s m.fields hnf,
      setFieldsAt_of_not_mem t k s m.functions hnc]
  exact ⟨hw, by rw [hw]⟩

/-- C4 witness: a concrete entity, a fresh snapshot, and a write
through a snapshot identity. -/
theorem get_snapshot_shares_no_state_witness :
    mI.maxId < 5 ∧ (6 ∈ idsFields (mI.getI 5))
    ∧ mI.writeAt 6 "endpoint" "changed" = mI :=
  ⟨by decide, by decide,
   (get_snapshot_shares_no_state mI 5 6 7 "endpoint" "changed" (by decide) (by decide)).1⟩

/-- C2, counterexample: an entity holding one in-memory child whose
document was never persisted.  A plain `save()` writes only the module
document, so the subsequent fresh `load()` discovers no children: the
child-name set is not reproduced. -/
theorem roundtrip_plain_save_loses_child :
    (mC2.bind (fun m => (roundTrip m fsScaffold).map childNames)) = some []
    ∧ mC2.map childNames = some ["fnone"] :=
  ⟨rfl, rfl⟩

/-!  Helper lemmas for the round-trip theorem.  -/

theorem mem_addEntry_of_mem (es : List String) (n x : String) (h : x ∈ es) :
    x ∈ addEntry es n := by
  unfold addEntry
  split
  · exact h
  · exact List.mem_append.mpr (Or.inl h)

theorem keysF_defaultFields (nm : String) :
    keysF (defaultFields nm) = defaultKeys := rfl

theorem sameSet_filter_contains (esW cn : List String)
    (hsub : ∀ x ∈ cn, x ∈ esW) :
    sameSet (esW.filter (fun e => cn.contains e)) cn = true := by
  unfold sameSet
  rw [Bool.and_eq_true, List.all_eq_true, List.all_eq_true]
  constructor
  · intro x hx
    exact (List.mem_filter.mp hx).2
  · intro x hx
    have hxw : x ∈ esW := hsub x hx
    have hxc : cn.contains x = true := by
      simpa using hx
    simpa using List.mem_filter.mpr ⟨hxw, hxc⟩

theorem loadFunctions_names (c md : String) (fp : FsPath) (fs : FS) :
    ∀ entries : List String,
      (∀ e ∈ entries, fs.fileExists (fp ++ [e, sFunctionJson]) = true →
        ∃ kvs, fs.files (fp ++ [e, sFunctionJson]) = some (.obj kvs)) →
      ∃ l, loadFunctions c md fp fs entries = .ok l
        ∧ l.map Prod.fst
            = entries.filter (fun e => fs.fileExists (fp ++ [e, sFunctionJson]))
  | [], _ => ⟨[], rfl, rfl⟩
  | e :: rest, hobj => by
    have hrest := loadFunctions_names c md fp fs rest
      (fun x hx => hobj x (List.mem_cons.mpr (Or.inr hx)))
    obtain ⟨l, hl, hnames⟩ := hrest
    cases hex : fs.fileExists (fp ++ [e, sFunctionJson]) with
    | false =>
      refine ⟨l, ?_, ?_⟩
      · rw [loadFunctions, if_neg (by simp [hex])]
        exact hl
      · rw [hnames, List.filter_cons, if_neg (by simp [hex])]
    | true =>
      obtain ⟨kvs, hk⟩ := hobj e (List.mem_cons.mpr (Or.inl rfl)) hex
      have hk1 : fs.readJson ((fp ++ [e]) ++ [sFunctionJson]) = some (.obj kvs) := by
        rw [List.append_assoc]
        exact hk
      refine ⟨(e, { FunctionEntity.construct c md e with
        fields := assignFields (FunctionEntity.construct c md e).fields kvs }) :: l, ?_, ?_⟩
      · rw [loadFunctions, if_pos (by simp [hex])]
        rw [FunctionEntity.load]
        rw [hk1, hl]
      · rw [List.map_cons, hnames, List.filter_cons, if_pos (by simp [hex])]

/-- C2, amended: `save()` followed by a fresh `load()` on the
equivalent identity reproduces the descriptor fields (excluding
`functions`, compared as key-value maps) unconditionally; the set of
child names is reproduced provided every in-memory child has its
descriptor document on disk under the module directory and no other
directory entry carries one (the state a deep save, or loading from
disk, leaves behind) — the plain-save counterexample shows the
child-name half cannot hold without that proviso. -/
theorem save_load_roundtrip (m : ServerlessModule) (fs : FS)
    (pp fp : FsPath) (c mdl : String) (es : List String)
    (h1 : m._S.config.projectPath = some pp)
    (h2 : m._config.component = some c)
    (h3 : m._config.module = some mdl)
    (h4 : m._config.fullPath = some fp)
    (h5 : fp = pp ++ [c, mdl])
    (h6 : c.isEmpty = false)
    (h7 : mdl.isEmpty = false)
    (h8 : (keysF m.fields).Nodup)
    (h9 : defaultKeys.all (fun k => (lookupF k m.fields).isSome) = true)
    (h10 : lookupF "functions" m.fields = none)
    (h11 : fs.fileExists (fp ++ [sModuleJson]) = true)
    (h12 : fs.dirs fp = some es)
    (h13 : (addEntry es sModuleJson).all
        (fun e => fs.fileExists (fp ++ [e, sFunctionJson])
          == (childNames m).contains e) = true)
    (h14 : (childNames m).all (fun f => es.contains f) = true)
    (h15 : (addEntry es sModuleJson).all
        (fun e => isObjOpt (fs.files (fp ++ [e, sFunctionJson]))) = true) :
    optCheck (roundTrip m fs)
      (fun m2 => mapEqB m2.fields m.fields
        && sameSet (childNames m2) (childNames m)) = true := by
  have hD : eraseKey "functions" m.get = m.fields := by
    unfold ServerlessModule.get
    rw [eraseKey_append, eraseKey_of_lookup_none m.fields "functions" h10]
    simp [eraseKey]
  have hsave : m.save none fs
      = .ok (m, fs.writeFile (fp ++ [sModuleJson]) (.obj (eraseKey "functions" m.get))) := by
    rw [ServerlessModule.save, h1, h4]
    simp [saveScaffoldStep, h11, saveDeepStep]
  set fs1 := fs.writeFile (fp ++ [sModuleJson]) (.obj (eraseKey "functions" m.get)) with hfs1
  have hcon : ServerlessModule.construct m._S
      { component := m._config.component, module := m._config.module }
      = .ok (freshModule m._S c mdl fp) := by
    rw [h2, h3, ServerlessModule.construct]
    have ht1 : truthy (some c) = true := by simp [truthy, h6]
    have ht2 : truthy (some mdl) = true := by simp [truthy, h7]
    rw [ht1, ht2]
    simp only [Bool.not_true, Bool.or_self, Bool.false_or, if_false]
    unfold updateConfig
    rw [ht1]
    simp only [Bool.true_or, if_true, h1]
    rw [h5]
    rfl
  have hdirs1 : fs1.dirs fp = some (addEntry es sModuleJson) := by
    rw [hfs1, writeFile_dirs_parent, h12]
    rfl
  have hfiles1 : ∀ e : String,
      fs1.files (fp ++ [e, sFunctionJson]) = fs.files (fp ++ [e, sFunctionJson]) := by
    intro e
    rw [hfs1]
    exact writeFile_files_ne fs _ _ _
      (Ne.symm (snoc_ne_snoc_two fp sModuleJson e sFunctionJson))
  have hexists1 : ∀ e : String,
      fs1.fileExists (fp ++ [e, sFunctionJson])
        = fs.fileExists (fp ++ [e, sFunctionJson]) := by
    intro e
    unfold FS.fileExists
    rw [hfiles1 e]
  have hobj : ∀ e ∈ addEntry es sModuleJson,
      fs1.fileExists (fp ++ [e, sFunctionJson]) = true →
      ∃ kvs, fs1.files (fp ++ [e, sFunctionJson]) = some (.obj kvs) := by
    intro e he hex
    rw [hexists1 e] at hex
    rw [hfiles1 e]
    have h15e := (List.all_eq_true.mp h15) e he
    cases hv : fs.files (fp ++ [e, sFunctionJson]) with
    | none =>
      rw [FS.fileExists, hv] at hex
      simp at hex
    | some v =>
      rw [hv] at h15e
      cases v with
      | obj kvs => exact ⟨kvs, rfl⟩
      | null => simp [isObjOpt] at h15e
      | bool b => simp [isObjOpt] at h15e
      | num n => simp [isObjOpt] at h15e
      | str s => simp [isObjOpt] at h15e
      | arr xs => simp [isObjOpt] at h15e
  obtain ⟨l, hl, hnames⟩ :=
    loadFunctions_names c mdl fp fs1 (addEntry es sModuleJson) hobj
  have hfex : fs1.fileExists (fp ++ [sModuleJson]) = true := by
    rw [hfs1]
    simp [FS.fileExists, writeFile_files_self]
  have hread : fs1.readJson (fp ++ [sModuleJson]) = some (.obj m.fields) := by
    rw [hfs1]
    unfold FS.readJson
    rw [writeFile_files_self, hD]
  have herase : eraseKey "functions" m.fields = m.fields :=
    eraseKey_of_lookup_none m.fields "functions" h10
  have hload : (freshModule m._S c mdl fp).load fs1
      = .ok { freshModule m._S c mdl fp with
          fields := assignFields (defaultFields (nameDefault (some mdl))) m.fields,
          functions := l } := by
    rw [ServerlessModule.load]
    simp [freshModule, h1, hfex, hread, FS.readdir, hdirs1, hl, herase]
  have hrt : roundTrip m fs = some { freshModule m._S c mdl fp with
      fields := assignFields (defaultFields (nameDefault (some mdl))) m.fields,
      functions := l } := by
    unfold roundTrip
    simp only [hsave, hcon, hload, Except.toOption]
  rw [hrt]
  unfold optCheck
  rw [Bool.and_eq_true]
  refine ⟨?_, ?_⟩
  · show mapEqB (assignFields (defaultFields (nameDefault (some mdl))) m.fields)
        m.fields = true
    apply mapEqB_of_lookup_eq
    · exact nodup_keysF_assignFields m.fields (defaultFields (nameDefault (some mdl)))
        (by rw [keysF_defaultFields]; decide)
    · exact h8
    · intro k
      rw [lookup_assignFields m.fields (defaultFields (nameDefault (some mdl))) k h8]
      cases hk : lookupF k m.fields with
      | some v => rfl
      | none =>
        have hnotin : k ∉ keysF (defaultFields (nameDefault (some mdl))) := by
          rw [keysF_defaultFields]
          intro hmem
          have h9k := (List.all_eq_true.mp h9) k hmem
          rw [hk] at h9k
          simp at h9k
        rw [lookupF_eq_none_of_not_mem _ _ hnotin]
        rfl
  · show sameSet (childNames { freshModule m._S c mdl fp with
        fields := assignFields (defaultFields (nameDefault (some mdl))) m.fields,
        functions := l }) (childNames m) = true
    unfold childNames
    show sameSet (l.map Prod.fst) (m.functions.map Prod.fst) = true
    rw [hnames]
    have hfc : (addEntry es sModuleJson).filter
          (fun e => fs1.fileExists (fp ++ [e, sFunctionJson]))
        = (addEntry es sModuleJson).filter
          (fun e => (childNames m).contains e) := by
      apply List.filter_congr
      intro e he
      rw [hexists1 e]
      exact eq_of_beq ((List.all_eq_true.mp h13) e he)
    rw [hfc]
    apply sameSet_filter_contains
    intro x hx
    have hxe : x ∈ es := by
      have h14x := (List.all_eq_true.mp h14) x hx
      simpa using h14x
    exact mem_addEntry_of_mem es sModuleJson x hxe

/-- C2 witness: the round trip on a concrete entity whose child
document is on disk. -/
theorem save_load_roundtrip_witness :
    fsLoaded.fileExists (["proj", "compone", "modone"] ++ [sModuleJson]) = true
    ∧ optCheck (roundTrip m1 fsLoaded)
        (fun m2 => mapEqB m2.fields m1.fields
          && sameSet (childNames m2) (childNames m1)) = true :=
  ⟨rfl,
   save_load_roundtrip m1 fsLoaded ["proj"] ["proj", "compone", "modone"]
     "compone" "modone" ["fnone", "s-module.json"]
     rfl rfl rfl rfl rfl rfl rfl (by decide) (by decide) rfl rfl rfl
     (by decide) (by decide) (by decide)⟩
